import Mathlib

/-!
Verification of the streaming audio core of the PixelHolo frontend
(src/App.tsx).  The file embeds, as executable Lean definitions,

* the newline-delimited stream reader `streamResponseLines` (the legacy
  `streamTextResponse` in the same source file implements the identical
  buffer/indexOf/trim loop, so one embedding covers both),
* the audio chunk scheduler `scheduleBuffer` of the React implementation
  and the `scheduleBuffer` of the legacy DOM implementation,
* the per-line handlers of `startInference` (React) and of the
  `streamBtn` click handler (legacy), with `JSON.parse` and the
  base64/`decodeAudioData` pipeline abstracted as oracles,
* the session lifecycle operations (`startInference`, `stopInference`,
  `resetAudio`) and the `AbortController` bookkeeping of both
  implementations.

Clock values and chunk durations are modelled as exact rationals; the
constants 0.05, 0.01, 0.008 and 0.002 of the source become 1/20, 1/100,
1/125 and 1/500, so every scheduling identity below is exact.
-/

namespace VoxClone

/-- Attack constant of the fade envelope, `const attack = 0.01` in
`scheduleBuffer` (src/App.tsx line 305). -/
def attack : ℚ := 1/100

/-- Release constant of the fade envelope, `const release = 0.01`
(src/App.tsx line 306). -/
def release : ℚ := 1/100

/-- Crossfade overlap constant, `const overlap = 0.008`
(src/App.tsx line 307). -/
def overlap : ℚ := 1/125

/-- Safety margin added to the current audio clock before scheduling,
the literal `0.05` in `ctx.currentTime + 0.05` (src/App.tsx line 308). -/
def safetyMargin : ℚ := 1/20

/-- Playback state held by the React implementation in `audioContextRef`
and `nextStartTimeRef`: `hasCtx` records whether
`audioContextRef.current` is non-null, `nextStartTime` is
`nextStartTimeRef.current` (seconds, audio-clock domain). -/
structure AppAudio where
  hasCtx : Bool
  nextStartTime : ℚ
deriving DecidableEq, Repr

/-- One scheduled playback action produced by `scheduleBuffer`: the
source start time, the buffer duration and the gain envelope data
(fade-in length, fade-out length, and the point from which full volume
is held, `Math.max(startAt + safeAttack, startAt + duration - safeRelease)`). -/
structure Sched where
  startAt : ℚ
  duration : ℚ
  safeAttack : ℚ
  safeRelease : ℚ
  holdFrom : ℚ
deriving DecidableEq, Repr

/-- Embedding of `scheduleBuffer` (src/App.tsx lines 296-319).  Returns
the updated playback state together with the scheduled action, or `none`
when the guard `if (!audioContextRef.current) return;` fires.  `now` is
`ctx.currentTime` at the moment of the call, `dur` is `buffer.duration`. -/
def scheduleBuffer (st : AppAudio) (now dur : ℚ) : AppAudio × Option Sched :=
  if st.hasCtx = false then (st, none)
  else
    let startAt := max (now + safetyMargin) st.nextStartTime
    let safeRelease := min release (max (1/500 : ℚ) (dur / 4))
    let safeAttack := min attack (max (1/500 : ℚ) (dur / 4))
    ({ st with nextStartTime := startAt + dur - overlap },
      some { startAt := startAt, duration := dur, safeAttack := safeAttack,
             safeRelease := safeRelease,
             holdFrom := max (startAt + safeAttack) (startAt + dur - safeRelease) })

/-- Playback state of the legacy DOM implementation: `state.audioCtx`
(non-null flag) and `state.nextStart`. -/
structure LegacyAudio where
  audioCtx : Bool
  nextStart : ℚ
deriving DecidableEq, Repr

/-- Embedding of the legacy `scheduleBuffer` (src/App.tsx lines
869-877): `startAt = Math.max(state.nextStart, currentTime + 0.05)`,
then `state.nextStart = startAt + buffer.duration` - no fade envelope
and no overlap subtraction.  The returned option is the start time of
the scheduled source, `none` when `if (!state.audioCtx) return;` fires. -/
def legacyScheduleBuffer (st : LegacyAudio) (now dur : ℚ) : LegacyAudio × Option ℚ :=
  if st.audioCtx = false then (st, none)
  else
    let startAt := max st.nextStart (now + safetyMargin)
    ({ st with nextStart := startAt + dur }, some startAt)

/-- Step status of the React app (src/types.ts). -/
inductive StepStatus where
  | idle
  | running
  | done
  | error
deriving DecidableEq, Repr

/-- Latency metrics kept in the `latency` React state:
`{ ttfa, total }`, in milliseconds. -/
structure Latency where
  ttfa : ℕ
  total : ℕ
deriving DecidableEq, Repr

/-- The part of the React component state that the inference stream
handler reads and writes: the audio refs, `stepStatuses.inference`, the
`latency` state, the `firstChunk` local flag of `startInference`, and
`inferenceChunks` as a list of `(chunk_index, duration)` pairs. -/
structure Session where
  audio : AppAudio
  inference : StepStatus
  latency : Option Latency
  firstChunk : Bool
  inferenceChunks : List (ℕ × ℚ)
deriving DecidableEq, Repr

/-- Embedding of `resetAudio` (src/App.tsx lines 288-294): the audio
context is closed and discarded and `nextStartTimeRef.current = 0`. -/
def resetAudio (_a : AppAudio) : AppAudio := ⟨false, 0⟩

/-- Embedding of `stopInference` (src/App.tsx lines 381-385): aborts the
in-flight request (modelled separately on `Ctl`), runs `resetAudio`,
and sets the inference status back to `idle`. -/
def stopInference (s : Session) : Session :=
  { s with audio := resetAudio s.audio, inference := .idle }

/-- Embedding of the state reset performed at the top of
`startInference` (src/App.tsx lines 321-337): the audio context is
ensured (so it exists afterwards), status becomes `running`, the chunk
list and latency are cleared, `firstChunk = true`, and
`nextStartTimeRef.current = audioContextRef.current?.currentTime || 0`,
modelled by `clockNow`, the fresh context clock value.  No field of the
previous session state survives. -/
def startInference (_s : Session) (clockNow : ℚ) : Session :=
  { audio := ⟨true, clockNow⟩, inference := .running, latency := none,
    firstChunk := true, inferenceChunks := [] }

/-- First-chunk bookkeeping of the React stream handler: on the first
audio chunk it clears `firstChunk` and sets
`latency = { ttfa: Math.round(performance.now() - startTime), total: 0 }`
before any decode is attempted (src/App.tsx lines 361-364). -/
def markFirstChunk (elapsed : ℕ) (s : Session) : Session :=
  if s.firstChunk then
    { s with firstChunk := false, latency := some ⟨elapsed, 0⟩ }
  else s

/-- Classification of one stream line by the outcome of `JSON.parse`
and the discriminator fields the handlers inspect:
`invalid` - `JSON.parse(line)` throws;
`doneEvent` - parsed object with `event === "done"`, carrying the
optional `inference_ms` field;
`audioChunk` - parsed object with a truthy `audio_base64` field and its
`chunk_index`;
`otherJson` - parsed object with neither discriminator. -/
inductive LineKind where
  | invalid (raw : String)
  | doneEvent (inference_ms : Option ℕ)
  | audioChunk (chunk_index : ℕ) (audio_base64 : String)
  | otherJson (raw : String)
deriving DecidableEq, Repr

/-- Embedding of the per-line handler of `startInference`
(src/App.tsx lines 353-373).  `decode` abstracts the
`atob`/`Uint8Array`/`decodeAudioData` pipeline, returning the decoded
buffer duration or `none` when it throws or rejects.  `elapsed` is
`Math.round(performance.now() - startTime)` at this call; `audioNow` is
the audio clock when `scheduleBuffer` runs.  A `.error` result models
the async callback throwing (an unhandled rejection, since
`streamResponseLines` does not await the callback); its payload is the
component state as already mutated before the throw, because those
mutations persist. -/
def handleLineReact (decode : String → Option ℚ) (elapsed : ℕ) (audioNow : ℚ)
    (s : Session) : LineKind → Except Session Session
  | .invalid _ => .error s
  | .doneEvent ms =>
      .ok { s with
        latency := s.latency.map (fun l => { l with total := ms.getD elapsed }),
        inference := .done }
  | .otherJson _ => .ok s
  | .audioChunk idx payload =>
      let s1 := markFirstChunk elapsed s
      if s1.audio.hasCtx = false then .error s1
      else
        match decode payload with
        | none => .error s1
        | some dur =>
          let r := scheduleBuffer s1.audio audioNow dur
          .ok { s1 with audio := r.1,
                        inferenceChunks := s1.inferenceChunks ++ [(idx, dur)] }

/-- The stream pump of `startInference`: `streamResponseLines` invokes
the async line callback without awaiting it, so a rejected callback is
never observed by the loop - the next line is processed against
whatever state the failed callback already persisted (the `.error`
payload). -/
def runStream (decode : String → Option ℚ) (elapsed : ℕ) (audioNow : ℚ)
    (s : Session) : List LineKind → Session
  | [] => s
  | k :: ks =>
    let s' := match handleLineReact decode elapsed audioNow s k with
      | .ok t => t
      | .error t => t
    runStream decode elapsed audioNow s' ks

/-- Observable state of the legacy DOM implementation around its stream
handler: the audio state, the `streamLog` contents (as a list of
appended entries), the total shown in `streamTiming` on done, the
first-chunk timestamp, and `streamStatus.textContent`. -/
structure LegacyState where
  audioCtx : Bool
  nextStart : ℚ
  streamLog : List String
  timingTotal : Option ℕ
  firstChunkMs : Option ℕ
  statusText : String
deriving DecidableEq, Repr

/-- First-chunk bookkeeping of the legacy handler
(`if (!firstChunkTime) { firstChunkTime = performance.now() - start; ... }`). -/
def legacyMarkFirst (elapsed : ℕ) (s : LegacyState) : LegacyState :=
  if s.firstChunkMs.isNone then { s with firstChunkMs := some elapsed } else s

/-- Embedding of the legacy `streamBtn` per-line handler (src/App.tsx
lines 1022-1043).  The whole body sits in `try { ... } catch (err)
{ appendLog("Parse error: ...") }`, so every throwing path (bad JSON, a
null audio context dereference, a rejected `decodeAudioData`) degrades
to a log entry and the handler is total.  On `done` it records the
measured wall-clock total (it never reads `inference_ms`). -/
def handleLineLegacy (decode : String → Option ℚ) (elapsed : ℕ) (audioNow : ℚ)
    (s : LegacyState) : LineKind → LegacyState
  | .invalid _ => { s with streamLog := s.streamLog ++ ["Parse error"] }
  | .doneEvent _ => { s with timingTotal := some elapsed, statusText := "Done." }
  | .otherJson _ => s
  | .audioChunk _ payload =>
      let s1 := legacyMarkFirst elapsed s
      if s1.audioCtx = false then
        { s1 with streamLog := s1.streamLog ++ ["Parse error"] }
      else
        match decode payload with
        | none => { s1 with streamLog := s1.streamLog ++ ["Parse error"] }
        | some dur =>
          let r := legacyScheduleBuffer ⟨s1.audioCtx, s1.nextStart⟩ audioNow dur
          { s1 with nextStart := r.1.nextStart,
                    streamLog := s1.streamLog ++ ["Chunk scheduled"] }

/-- Abort-controller bookkeeping shared by both implementations:
`inFlight` is the list of ids of issued, not-yet-aborted network
requests, `abortRef` the id held in `streamAbortRef.current`
(respectively `state.streamAbort`), `nextId` a fresh-id counter. -/
structure Ctl where
  inFlight : List ℕ
  abortRef : Option ℕ
  nextId : ℕ
deriving DecidableEq, Repr

/-- Effect of `streamAbortRef.current.abort()`: the request owned by the
referenced controller stops being in flight. -/
def abortCurrent (c : Ctl) : Ctl :=
  match c.abortRef with
  | some i => { c with inFlight := c.inFlight.filter (fun j => j != i) }
  | none => c

/-- Controller effect of the React `startInference` (src/App.tsx lines
329-333): `if (streamAbortRef.current) streamAbortRef.current.abort();`
then a fresh controller is created, stored in the ref, and its request
issued. -/
def startInferenceCtl (c : Ctl) : Ctl :=
  let c1 := abortCurrent c
  { inFlight := c1.nextId :: c1.inFlight, abortRef := some c1.nextId,
    nextId := c1.nextId + 1 }

/-- Controller effect of the legacy `streamBtn` click handler
(src/App.tsx lines 1009-1010): `const controller = new AbortController();
state.streamAbort = controller;` - the previous controller is
overwritten without being aborted, and the new request issued. -/
def streamBtnClickCtl (c : Ctl) : Ctl :=
  { inFlight := c.nextId :: c.inFlight, abortRef := some c.nextId,
    nextId := c.nextId + 1 }

/-- Single-streaming invariant: at most one request is in flight, and
any in-flight request is the one owned by the controller currently held
in the abort ref (so it can still be cancelled). -/
def CtlInv (c : Ctl) : Prop :=
  c.inFlight.length ≤ 1 ∧ ∀ i ∈ c.inFlight, c.abortRef = some i

/-- Whitespace predicate used by the model of the JavaScript
`String.prototype.trim`. -/
def isWs (c : Char) : Bool :=
  c = ' ' || c = '\t' || c = '\n' || c = '\r'

/-- Model of `line.trim()`: strip whitespace from both ends. -/
def trimLine (l : List Char) : List Char :=
  ((l.dropWhile isWs).reverse.dropWhile isWs).reverse

/-- One step of the buffer scan of `streamResponseLines`: prepend a
non-newline character to the first complete line when one exists,
otherwise to the trailing fragment. -/
def consFirst (c : Char) : List (List Char) × List Char → List (List Char) × List Char
  | ([], b) => ([], c :: b)
  | (l :: ls, b) => ((c :: l) :: ls, b)

/-- Decomposition performed by the inner `while` loop of
`streamResponseLines` (src/App.tsx lines 151-157): split the buffer into
the complete lines before each newline, and the trailing fragment after
the last newline. -/
def splitCompleteLines : List Char → List (List Char) × List Char
  | [] => ([], [])
  | c :: rest =>
    if c = '\n' then
      ([] :: (splitCompleteLines rest).1, (splitCompleteLines rest).2)
    else consFirst c (splitCompleteLines rest)

/-- Prefix the first element of a line list with a carried fragment. -/
def glueFirst (r : List Char) : List (List Char) → List (List Char)
  | [] => []
  | l :: ls => (r ++ l) :: ls

/-- Emission discipline of the reader: each raw line is trimmed and
delivered to `onLine` only when non-empty (`if (line) onLine(line);`). -/
def emitLines (ls : List (List Char)) : List (List Char) :=
  (ls.map trimLine).filter (fun l => !l.isEmpty)

/-- The read loop of `streamResponseLines` with an explicit carried
buffer: each arriving chunk is appended to the buffer, all complete
lines are emitted, and at end of stream the trimmed trailing fragment is
emitted when non-empty. -/
def streamAux : List Char → List (List Char) → List (List Char)
  | buf, [] => emitLines [buf]
  | buf, chunk :: chunks =>
    emitLines (splitCompleteLines (buf ++ chunk)).1
      ++ streamAux (splitCompleteLines (buf ++ chunk)).2 chunks

/-- Embedding of `streamResponseLines` (src/App.tsx lines 142-162): the
sequence of lines delivered to `onLine` for a given sequence of decoded
text chunks.  (The byte-to-text step, `decoder.decode(value,
{ stream: true })`, is the platform's stateful incremental decoder; its
streaming mode makes it invariant under re-chunking of the byte stream,
so chunks are modelled at the text level.) -/
def streamResponseLines (chunks : List (List Char)) : List (List Char) :=
  streamAux [] chunks

/-! Helper lemmas. -/

theorem markFirstChunk_audio (elapsed : ℕ) (s : Session) :
    (markFirstChunk elapsed s).audio = s.audio := by
  unfold markFirstChunk; split <;> rfl

theorem markFirstChunk_inferenceChunks (elapsed : ℕ) (s : Session) :
    (markFirstChunk elapsed s).inferenceChunks = s.inferenceChunks := by
  unfold markFirstChunk; split <;> rfl

theorem scheduleBuffer_hasCtx (st : AppAudio) (hctx : st.hasCtx = true)
    (now dur : ℚ) :
    scheduleBuffer st now dur
      = (⟨true, max (now + safetyMargin) st.nextStartTime + dur - overlap⟩,
         some ⟨max (now + safetyMargin) st.nextStartTime, dur,
               min attack (max (1/500) (dur / 4)),
               min release (max (1/500) (dur / 4)),
               max (max (now + safetyMargin) st.nextStartTime
                      + min attack (max (1/500) (dur / 4)))
                   (max (now + safetyMargin) st.nextStartTime + dur
                      - min release (max (1/500) (dur / 4)))⟩) := by
  obtain ⟨hc, nst⟩ := st
  subst hctx
  rfl

theorem legacyScheduleBuffer_hasCtx (st : LegacyAudio) (h : st.audioCtx = true)
    (now dur : ℚ) :
    legacyScheduleBuffer st now dur
      = (⟨true, max st.nextStart (now + safetyMargin) + dur⟩,
         some (max st.nextStart (now + safetyMargin))) := by
  obtain ⟨hc, nst⟩ := st
  subst h
  rfl

/-- C1 counterexample: the legacy DOM `scheduleBuffer` feeds a chunk of
duration 1 s to the scheduler at start time 10, but updates `nextStart`
to `startAt + duration = 11`, not to `startAt + duration - overlap`
as the claim states for every chunk fed to the scheduler. -/
theorem c1_counterexample :
    (legacyScheduleBuffer ⟨true, 10⟩ 0 1).2 = some 10
  ∧ (legacyScheduleBuffer ⟨true, 10⟩ 0 1).1.nextStart = 11
  ∧ (11 : ℚ) ≠ 10 + 1 - overlap := by
  have h := legacyScheduleBuffer_hasCtx ⟨true, 10⟩ rfl 0 1
  have hmax : max (10 : ℚ) (0 + safetyMargin) = 10 :=
    max_eq_left (by norm_num [safetyMargin])
  refine ⟨?_, ?_, ?_⟩
  · rw [h]
    simp [hmax]
    norm_num [safetyMargin]
  · rw [h]
    show max (10 : ℚ) (0 + safetyMargin) + 1 = 11
    rw [hmax]; norm_num
  · norm_num [overlap]

/-- C1 (amended): in the React implementation `scheduleBuffer` computes
`startAt = max (now + 0.05) nextStartTime`, updates
`nextStartTime = startAt + duration - overlap`, and when the next call
is past the `now + margin` floor its start time equals the previous
start plus the previous duration minus the overlap constant; the legacy
DOM `scheduleBuffer` uses the same `startAt` formula but updates
`nextStart = startAt + duration` with no overlap. -/
theorem c1_amended_overlap (st : AppAudio) (hctx : st.hasCtx = true)
    (now1 d1 now2 d2 : ℚ)
    (hfloor : now2 + safetyMargin ≤ (scheduleBuffer st now1 d1).1.nextStartTime)
    (lst : LegacyAudio) (hl : lst.audioCtx = true) (lnow ldur : ℚ) :
    ((scheduleBuffer st now1 d1).2.map Sched.startAt
        = some (max (now1 + safetyMargin) st.nextStartTime))
  ∧ ((scheduleBuffer st now1 d1).1.nextStartTime
        = max (now1 + safetyMargin) st.nextStartTime + d1 - overlap)
  ∧ ((scheduleBuffer (scheduleBuffer st now1 d1).1 now2 d2).2.map Sched.startAt
        = some (max (now1 + safetyMargin) st.nextStartTime + d1 - overlap))
  ∧ ((legacyScheduleBuffer lst lnow ldur).1.nextStart
        = max lst.nextStart (lnow + safetyMargin) + ldur) := by
  have hM := scheduleBuffer_hasCtx st hctx now1 d1
  have hfloor' : now2 + safetyMargin
      ≤ max (now1 + safetyMargin) st.nextStartTime + d1 - overlap := by
    rw [hM] at hfloor
    exact hfloor
  refine ⟨?_, ?_, ?_, ?_⟩
  · rw [hM]
    rfl
  · rw [hM]
  · rw [hM]
    rw [scheduleBuffer_hasCtx _ rfl now2 d2]
    show some (max (now2 + safetyMargin)
          (max (now1 + safetyMargin) st.nextStartTime + d1 - overlap)) = _
    rw [max_eq_right hfloor']
  · rw [legacyScheduleBuffer_hasCtx lst hl]

/-- C1 witness: concrete two-chunk schedule past the margin floor. -/
theorem c1_amended_overlap_witness :
    ((scheduleBuffer ⟨true, 10⟩ 0 1).2.map Sched.startAt
        = some (max ((0 : ℚ) + safetyMargin) 10))
  ∧ ((scheduleBuffer ⟨true, 10⟩ 0 1).1.nextStartTime
        = max ((0 : ℚ) + safetyMargin) 10 + 1 - overlap)
  ∧ ((scheduleBuffer (scheduleBuffer ⟨true, 10⟩ 0 1).1 0 1).2.map Sched.startAt
        = some (max ((0 : ℚ) + safetyMargin) 10 + 1 - overlap))
  ∧ ((legacyScheduleBuffer ⟨true, 5⟩ 0 2).1.nextStart
        = max 5 ((0 : ℚ) + safetyMargin) + 2) :=
  c1_amended_overlap ⟨true, 10⟩ rfl 0 1 0 1
    (by
      rw [scheduleBuffer_hasCtx ⟨true, 10⟩ rfl 0 1]
      show (0 : ℚ) + safetyMargin ≤ max ((0 : ℚ) + safetyMargin) 10 + 1 - overlap
      rw [max_eq_right (by norm_num [safetyMargin] : (0 : ℚ) + safetyMargin ≤ 10)]
      norm_num [safetyMargin, overlap])
    ⟨true, 5⟩ rfl 0 2

/-- C4 counterexample: with the session active (`hasCtx`) and
`nextStartTime = 10`, scheduling a 4 ms chunk (shorter than the 8 ms
overlap) strictly decreases `nextStartTime`. -/
theorem c4_counterexample :
    ((scheduleBuffer ⟨true, 10⟩ 0 (1/250)).2).isSome = true
  ∧ (scheduleBuffer ⟨true, 10⟩ 0 (1/250)).1.nextStartTime < 10 := by
  rw [scheduleBuffer_hasCtx ⟨true, 10⟩ rfl 0 (1/250)]
  refine ⟨rfl, ?_⟩
  show max ((0 : ℚ) + safetyMargin) 10 + 1/250 - overlap < 10
  rw [max_eq_right (by norm_num [safetyMargin] : (0 : ℚ) + safetyMargin ≤ 10)]
  norm_num [overlap]

/-- C4 (amended): `nextStartTime` is non-decreasing under every
scheduling operation whose chunk duration is at least the overlap
constant, and it is reset exactly by `startInference` (to the current
audio-clock time) and by `resetAudio` (to zero). -/
theorem c4_amended_monotone (st : AppAudio) (now dur : ℚ) (hdur : overlap ≤ dur)
    (s : Session) (t : ℚ) :
    st.nextStartTime ≤ (scheduleBuffer st now dur).1.nextStartTime
  ∧ (startInference s t).audio.nextStartTime = t
  ∧ (resetAudio st).nextStartTime = 0 := by
  refine ⟨?_, rfl, rfl⟩
  by_cases h : st.hasCtx = true
  · rw [scheduleBuffer_hasCtx st h now dur]
    show st.nextStartTime ≤ max (now + safetyMargin) st.nextStartTime + dur - overlap
    have h1 := le_max_right (now + safetyMargin) st.nextStartTime
    linarith
  · simp only [Bool.not_eq_true] at h
    simp [scheduleBuffer, h]

/-- C4 witness: a 1 s chunk on an active session. -/
theorem c4_amended_monotone_witness :
    (⟨true, 0⟩ : AppAudio).nextStartTime
        ≤ (scheduleBuffer ⟨true, 0⟩ 0 1).1.nextStartTime
  ∧ (startInference ⟨⟨true, 0⟩, .idle, none, true, []⟩ 7).audio.nextStartTime = 7
  ∧ (resetAudio ⟨true, 0⟩).nextStartTime = 0 :=
  c4_amended_monotone ⟨true, 0⟩ 0 1 (by norm_num [overlap])
    ⟨⟨true, 0⟩, .idle, none, true, []⟩ 7

/-- C5 counterexample: a decode already issued in a session that was
stopped, resolving only after a subsequent `startInference` (here with
the fresh context clock at 3), is not a no-op at the scheduling step:
`scheduleBuffer` finds the new non-null context, schedules the
cancelled session's chunk, and advances `nextStartTime` from 3 to
`max(0 + 0.05, 3) + 1 - overlap`. -/
theorem c5_counterexample :
    ((scheduleBuffer
        (startInference (stopInference ⟨⟨true, 10⟩, .running, none, true, []⟩) 3).audio
        0 1).2).isSome = true
  ∧ (scheduleBuffer
        (startInference (stopInference ⟨⟨true, 10⟩, .running, none, true, []⟩) 3).audio
        0 1).1.nextStartTime ≠ 3 := by
  refine ⟨rfl, ?_⟩
  rw [show (startInference (stopInference ⟨⟨true, 10⟩, .running, none, true, []⟩) 3).audio
        = (⟨true, 3⟩ : AppAudio) from rfl,
      scheduleBuffer_hasCtx ⟨true, 3⟩ rfl 0 1]
  show max ((0 : ℚ) + safetyMargin) 3 + 1 - overlap ≠ 3
  rw [max_eq_right (by norm_num [safetyMargin] : (0 : ℚ) + safetyMargin ≤ 3)]
  norm_num [overlap]

/-- C5 (amended): between `stopInference` and the next `startInference`
no chunk is scheduled - stop discards the audio context and zeroes
`nextStartTime`, and the null-context guard makes every `scheduleBuffer`
call in that window a no-op that leaves the playback state unchanged.
The guard checks context-nullness only, not session state, so an
already-issued decode that resolves after a subsequent `startInference`
finds the fresh context and is scheduled onto the new session's clock,
advancing the new schedule to `max(now + 0.05, clockAtStart) + duration
- overlap`. -/
theorem c5_amended_noop (s s' : Session) (now dur t now' dur' : ℚ) :
    scheduleBuffer (stopInference s).audio now dur = ((stopInference s).audio, none)
  ∧ (stopInference s).audio.nextStartTime = 0
  ∧ (stopInference s).audio.hasCtx = false
  ∧ ((scheduleBuffer (startInference (stopInference s') t).audio now' dur').2).isSome
      = true
  ∧ (scheduleBuffer (startInference (stopInference s') t).audio now' dur').1.nextStartTime
      = max (now' + safetyMargin) t + dur' - overlap := by
  have h4 : (startInference (stopInference s') t).audio = (⟨true, t⟩ : AppAudio) := rfl
  refine ⟨rfl, rfl, rfl, ?_, ?_⟩
  · rw [h4, scheduleBuffer_hasCtx ⟨true, t⟩ rfl now' dur']
    rfl
  · rw [h4, scheduleBuffer_hasCtx ⟨true, t⟩ rfl now' dur']

/-- C7: `stopInference` resets the playback state to `⟨no context, 0⟩`;
after a stop/start cycle the first scheduled start time is
`max (now + margin) clockAtStart`, the same for any two prior session
histories - it depends only on the fresh audio clock. -/
theorem c7_stop_resets_clock (s1 s2 : Session) (t now dur : ℚ) :
    (stopInference s1).audio = ⟨false, 0⟩
  ∧ scheduleBuffer (startInference (stopInference s1) t).audio now dur
      = scheduleBuffer (startInference (stopInference s2) t).audio now dur
  ∧ (scheduleBuffer (startInference (stopInference s1) t).audio now dur).2.map
        Sched.startAt = some (max (now + safetyMargin) t) := by
  refine ⟨rfl, rfl, ?_⟩
  simp [startInference, scheduleBuffer]

/-- C9 counterexample: a zero-duration chunk on an active session is
not dropped - `scheduleBuffer` schedules it and moves `nextStartTime`
(here from 10 down to `10 - overlap`). -/
theorem c9_counterexample :
    ((scheduleBuffer ⟨true, 10⟩ 0 0).2).isSome = true
  ∧ (scheduleBuffer ⟨true, 10⟩ 0 0).1.nextStartTime ≠ 10 := by
  rw [scheduleBuffer_hasCtx ⟨true, 10⟩ rfl 0 0]
  refine ⟨rfl, ?_⟩
  show max ((0 : ℚ) + safetyMargin) 10 + 0 - overlap ≠ 10
  rw [max_eq_right (by norm_num [safetyMargin] : (0 : ℚ) + safetyMargin ≤ 10)]
  norm_num [overlap]

/-- C9 (amended): an audio chunk whose payload fails to decode is
dropped before the scheduling step - the handler throws (an unobserved
rejection, with no warning written to the log sink), the playback state
and chunk list are unchanged - and the stream continues: a following
`done` line still completes the session.  A zero-duration chunk is not
dropped: `scheduleBuffer` schedules it like any other chunk. -/
theorem c9_amended_drop (decode : String → Option ℚ) (elapsed : ℕ) (audioNow : ℚ)
    (s : Session) (idx : ℕ) (payload : String) (ms : Option ℕ)
    (hctx : s.audio.hasCtx = true) (hdec : decode payload = none)
    (st0 : AppAudio) (h0 : st0.hasCtx = true) :
    handleLineReact decode elapsed audioNow s (.audioChunk idx payload)
      = .error (markFirstChunk elapsed s)
  ∧ (markFirstChunk elapsed s).audio = s.audio
  ∧ (markFirstChunk elapsed s).inferenceChunks = s.inferenceChunks
  ∧ (runStream decode elapsed audioNow s
        [.audioChunk idx payload, .doneEvent ms]).inference = .done
  ∧ ((scheduleBuffer st0 audioNow 0).2).isSome = true := by
  have ha := markFirstChunk_audio elapsed s
  refine ⟨?_, ha, markFirstChunk_inferenceChunks elapsed s, ?_, ?_⟩
  · simp [handleLineReact, ha, hctx, hdec]
  · simp [runStream, handleLineReact, ha, hctx, hdec]
  · simp [scheduleBuffer, h0]

/-- C9 witness: an undecodable chunk followed by `done` on a live
session, and a zero-duration chunk on a live playback state. -/
theorem c9_amended_drop_witness :
    handleLineReact (fun _ => none) 100 0 ⟨⟨true, 2⟩, .running, none, true, []⟩
        (.audioChunk 0 "x")
      = .error (markFirstChunk 100 ⟨⟨true, 2⟩, .running, none, true, []⟩)
  ∧ (markFirstChunk 100 ⟨⟨true, 2⟩, .running, none, true, []⟩).audio
      = (⟨⟨true, 2⟩, .running, none, true, []⟩ : Session).audio
  ∧ (markFirstChunk 100 ⟨⟨true, 2⟩, .running, none, true, []⟩).inferenceChunks
      = (⟨⟨true, 2⟩, .running, none, true, []⟩ : Session).inferenceChunks
  ∧ (runStream (fun _ => none) 100 0 ⟨⟨true, 2⟩, .running, none, true, []⟩
        [.audioChunk 0 "x", .doneEvent (some 900)]).inference = .done
  ∧ ((scheduleBuffer ⟨true, 5⟩ 0 0).2).isSome = true :=
  c9_amended_drop (fun _ => none) 100 0 ⟨⟨true, 2⟩, .running, none, true, []⟩
    0 "x" (some 900) rfl rfl ⟨true, 5⟩ rfl

/-- C10 counterexample: for a 4 ms chunk the scheduled fade-in is the
2 ms floor `0.002`, not `min(attack, duration/4) = 1 ms` as claimed. -/
theorem c10_counterexample :
    ((scheduleBuffer ⟨true, 0⟩ 0 (1/250)).2.map Sched.safeAttack = some (1/500))
  ∧ ((1/500 : ℚ) ≠ min attack (1/250 / 4)) := by
  constructor
  · rw [scheduleBuffer_hasCtx ⟨true, 0⟩ rfl 0 (1/250)]
    show some (min attack (max (1/500) ((1 : ℚ)/250 / 4))) = some (1/500)
    rw [max_eq_left (by norm_num : ((1 : ℚ)/250 / 4) ≤ 1/500),
        min_eq_right (by norm_num [attack] : (1/500 : ℚ) ≤ attack)]
  · rw [min_eq_right (by norm_num [attack] : ((1 : ℚ)/250 / 4) ≤ attack)]
    norm_num

/-- C10 (amended): the fade lengths are
`min(attack, max(0.002, duration/4))` and
`min(release, max(0.002, duration/4))`; for chunks of duration at least
0.008 s this equals the claimed `min(attack, duration/4)` and
`min(release, duration/4)` quarter-duration cap, while shorter chunks
receive the 2 ms floor instead. -/
theorem c10_amended_fades (st : AppAudio) (hctx : st.hasCtx = true)
    (now dur dur' : ℚ) (hdur : (1/125 : ℚ) ≤ dur) :
    ((scheduleBuffer st now dur).2.map Sched.safeAttack
        = some (min attack (dur / 4)))
  ∧ ((scheduleBuffer st now dur).2.map Sched.safeRelease
        = some (min release (dur / 4)))
  ∧ ((scheduleBuffer st now dur').2.map Sched.safeAttack
        = some (min attack (max (1/500) (dur' / 4))))
  ∧ ((scheduleBuffer st now dur').2.map Sched.safeRelease
        = some (min release (max (1/500) (dur' / 4)))) := by
  have hq : max (1/500 : ℚ) (dur / 4) = dur / 4 := max_eq_right (by linarith)
  refine ⟨?_, ?_, ?_, ?_⟩ <;>
    rw [scheduleBuffer_hasCtx st hctx] <;> try rw [hq]
  all_goals rfl

/-- C10 witness: a 1 s chunk (quarter cap applies) and a 4 ms chunk
(floor applies). -/
theorem c10_amended_fades_witness :
    ((scheduleBuffer ⟨true, 0⟩ 0 1).2.map Sched.safeAttack
        = some (min attack ((1 : ℚ) / 4)))
  ∧ ((scheduleBuffer ⟨true, 0⟩ 0 1).2.map Sched.safeRelease
        = some (min release ((1 : ℚ) / 4)))
  ∧ ((scheduleBuffer ⟨true, 0⟩ 0 (1/250)).2.map Sched.safeAttack
        = some (min attack (max (1/500) ((1 : ℚ)/250 / 4))))
  ∧ ((scheduleBuffer ⟨true, 0⟩ 0 (1/250)).2.map Sched.safeRelease
        = some (min release (max (1/500) ((1 : ℚ)/250 / 4)))) :=
  c10_amended_fades ⟨true, 0⟩ rfl 0 1 (1/250) (by norm_num)

/-- C6 counterexample: in the legacy DOM implementation, clicking
`streamBtn` a second time while the first request is still in flight
overwrites `state.streamAbort` without calling `abort()` - afterwards
two unaborted requests are in flight, so two sessions stream onto the
shared audio clock concurrently. -/
theorem c6_counterexample :
    (streamBtnClickCtl (streamBtnClickCtl ⟨[], none, 0⟩)).inFlight = [1, 0]
  ∧ ¬ CtlInv (streamBtnClickCtl (streamBtnClickCtl ⟨[], none, 0⟩)) := by
  refine ⟨rfl, ?_⟩
  rintro ⟨h1, -⟩
  norm_num [streamBtnClickCtl] at h1

/-- C6 (amended): the React `startInference` aborts any prior in-flight
request before issuing the new one, so it preserves the invariant that
at most one unaborted request is in flight (and that request is the one
owned by the controller in the abort ref); the legacy `streamBtn`
handler does not. -/
theorem c6_amended_invariant (c : Ctl) (h : CtlInv c) :
    CtlInv (startInferenceCtl c) ∧ (startInferenceCtl c).inFlight.length ≤ 1 := by
  have hempty : (abortCurrent c).inFlight = [] := by
    rcases hr : c.abortRef with _ | a
    · rcases hf : c.inFlight with _ | ⟨x, xs⟩
      · simp [abortCurrent, hr, hf]
      · exfalso
        have hx := h.2 x (by rw [hf]; exact List.mem_cons_self x xs)
        rw [hr] at hx
        cases hx
    · simp only [abortCurrent, hr]
      apply List.filter_eq_nil_iff.mpr
      intro x hx
      have hx2 := h.2 x hx
      rw [hr] at hx2
      injection hx2 with hax
      simp [hax]
  constructor
  · constructor
    · simp [startInferenceCtl, hempty]
    · intro i hi
      simp only [startInferenceCtl, hempty] at hi ⊢
      rcases List.mem_singleton.mp hi with rfl
      rfl
  · simp [startInferenceCtl, hempty]

/-- C6 witness: starting a new session over one in-flight request. -/
theorem c6_amended_invariant_witness :
    CtlInv ⟨[5], some 5, 6⟩
  ∧ (CtlInv (startInferenceCtl ⟨[5], some 5, 6⟩)
      ∧ (startInferenceCtl ⟨[5], some 5, 6⟩).inFlight.length ≤ 1) :=
  ⟨⟨by norm_num, by intro i hi; rcases List.mem_singleton.mp hi with rfl; rfl⟩,
   c6_amended_invariant ⟨[5], some 5, 6⟩
     ⟨by norm_num, by intro i hi; rcases List.mem_singleton.mp hi with rfl; rfl⟩⟩

/-- C3: on a line that is not valid JSON (for example the plain
progress line `Loading model...`), the React stream handler throws out
of `JSON.parse` instead of treating the line as a log line, while the
legacy handler - whose body the spec describes - catches the same
failure and appends a parse-error log entry without aborting. -/
theorem c3_code_evaluation :
    handleLineReact (fun _ => none) 0 0 ⟨⟨true, 0⟩, .running, none, true, []⟩
        (.invalid ("Loading model..."))
      = .error ⟨⟨true, 0⟩, .running, none, true, []⟩
  ∧ handleLineLegacy (fun _ => none) 0 0 ⟨true, 0, [], none, none, "Streaming..."⟩
        (.invalid ("Loading model..."))
      = ⟨true, 0, ["Parse error"], none, none, "Streaming..."⟩ :=
  ⟨rfl, rfl⟩

/-- C8 counterexample: a `done` record carrying `inference_ms = 900`
that arrives before any audio chunk leaves `latency` equal to `none` -
no `totalMs` is recorded at all, though the claim says the
server-reported value is recorded for every stream. -/
theorem c8_counterexample :
    handleLineReact (fun _ => none) 500 0 ⟨⟨true, 0⟩, .running, none, true, []⟩
        (.doneEvent (some 900))
      = .ok ⟨⟨true, 0⟩, .done, none, true, []⟩ :=
  rfl

/-- C8 (amended): when `done` arrives and at least one audio chunk was
received (`latency` initialized), the React handler records
`total = inference_ms` when present and the measured elapsed time
otherwise, and transitions to `done`; when no chunk preceded `done` it
records no total but still transitions.  The legacy handler always
records the measured elapsed time, ignoring `inference_ms`. -/
theorem c8_amended_done (decode : String → Option ℚ) (elapsed : ℕ) (audioNow : ℚ)
    (ms : Option ℕ) (s : Session) (l : Latency) (hl : s.latency = some l)
    (s0 : Session) (h0 : s0.latency = none) (ls : LegacyState) :
    handleLineReact decode elapsed audioNow s (.doneEvent ms)
      = .ok { s with latency := some { l with total := ms.getD elapsed },
                     inference := .done }
  ∧ handleLineReact decode elapsed audioNow s0 (.doneEvent ms)
      = .ok { s0 with inference := .done }
  ∧ handleLineLegacy decode elapsed audioNow ls (.doneEvent ms)
      = { ls with timingTotal := some elapsed, statusText := "Done." } := by
  refine ⟨?_, ?_, rfl⟩
  · simp [handleLineReact, hl]
  · simp [handleLineReact, h0]

/-- C8 witness: `done` with a server-reported 900 ms after a first
chunk at 120 ms, the same `done` with no prior chunk, and the legacy
handler's measured 500 ms. -/
theorem c8_amended_done_witness :
    handleLineReact (fun _ => none) 500 0
        ⟨⟨true, 0⟩, .running, some ⟨120, 0⟩, false, []⟩ (.doneEvent (some 900))
      = .ok ⟨⟨true, 0⟩, .done, some ⟨120, 900⟩, false, []⟩
  ∧ handleLineReact (fun _ => none) 500 0
        ⟨⟨true, 3⟩, .running, none, true, []⟩ (.doneEvent (some 900))
      = .ok ⟨⟨true, 3⟩, .done, none, true, []⟩
  ∧ handleLineLegacy (fun _ => none) 500 0
        ⟨true, 0, [], none, none, "Streaming..."⟩ (.doneEvent (some 900))
      = ⟨true, 0, [], some 500, none, "Done."⟩ :=
  c8_amended_done (fun _ => none) 500 0 (some 900)
    ⟨⟨true, 0⟩, .running, some ⟨120, 0⟩, false, []⟩ ⟨120, 0⟩ rfl
    ⟨⟨true, 3⟩, .running, none, true, []⟩ rfl
    ⟨true, 0, [], none, none, "Streaming..."⟩

/-! Split-invariance of the line reader. -/

theorem glueFirst_nil (ls : List (List Char)) : glueFirst [] ls = ls := by
  cases ls <;> simp [glueFirst]

theorem splitCompleteLines_fst_nil (b : List Char)
    (h : (splitCompleteLines b).1 = []) : (splitCompleteLines b).2 = b := by
  induction b with
  | nil => rfl
  | cons c rest ih =>
    by_cases hc : c = '\n'
    · subst hc
      simp [splitCompleteLines] at h
    · simp only [splitCompleteLines, if_neg hc] at h ⊢
      rcases hr : splitCompleteLines rest with ⟨fst, snd⟩
      rw [hr] at h
      cases fst with
      | nil =>
        simp only [consFirst]
        have hs : snd = rest := by
          have h4 := ih (by rw [hr])
          rw [hr] at h4
          exact h4
        rw [hs]
      | cons l ls => simp [consFirst] at h

theorem splitCompleteLines_no_newline (l : List Char) (h : '\n' ∉ l) :
    splitCompleteLines l = ([], l) := by
  induction l with
  | nil => rfl
  | cons c rest ih =>
    have hc : c ≠ '\n' := fun hcc => h (hcc ▸ List.mem_cons_self c rest)
    have hr : '\n' ∉ rest := fun hm => h (List.mem_cons_of_mem c hm)
    simp only [splitCompleteLines, if_neg hc, ih hr, consFirst]

theorem splitCompleteLines_snd_no_newline (l : List Char) :
    '\n' ∉ (splitCompleteLines l).2 := by
  induction l with
  | nil => simp [splitCompleteLines]
  | cons c rest ih =>
    by_cases hc : c = '\n'
    · subst hc
      simpa [splitCompleteLines] using ih
    · simp only [splitCompleteLines, if_neg hc]
      rcases hr : splitCompleteLines rest with ⟨fst, snd⟩
      rw [hr] at ih
      cases fst with
      | nil =>
        simp only [consFirst, List.mem_cons]
        rintro (h | h)
        · exact hc h.symm
        · exact ih h
      | cons l0 ls => simpa [consFirst] using ih

theorem splitCompleteLines_cons_newline (rest : List Char) :
    splitCompleteLines ('\n' :: rest)
      = ([] :: (splitCompleteLines rest).1, (splitCompleteLines rest).2) := by
  simp [splitCompleteLines]

theorem splitCompleteLines_cons_other (c : Char) (rest : List Char) (hc : c ≠ '\n') :
    splitCompleteLines (c :: rest) = consFirst c (splitCompleteLines rest) := by
  simp [splitCompleteLines, hc]

theorem splitCompleteLines_append (a b : List Char) :
    splitCompleteLines (a ++ b)
      = ((splitCompleteLines a).1
            ++ glueFirst (splitCompleteLines a).2 (splitCompleteLines b).1,
         if (splitCompleteLines b).1 = [] then (splitCompleteLines a).2 ++ b
         else (splitCompleteLines b).2) := by
  induction a with
  | nil =>
    rcases hB : splitCompleteLines b with ⟨B1, B2⟩
    by_cases hb : B1 = []
    · have hfst : (splitCompleteLines b).1 = [] := by rw [hB, hb]
      have h2 : B2 = b := by
        have h3 := splitCompleteLines_fst_nil b hfst
        rw [hB] at h3
        exact h3
      subst hb
      subst h2
      simp [splitCompleteLines, hB, glueFirst_nil]
    · simp [splitCompleteLines, hB, glueFirst_nil, hb]
  | cons c a' ih =>
    by_cases hc : c = '\n'
    · subst hc
      rw [List.cons_append, splitCompleteLines_cons_newline (a' ++ b),
          splitCompleteLines_cons_newline a', ih]
      simp [List.cons_append]
    · rw [List.cons_append, splitCompleteLines_cons_other c (a' ++ b) hc,
          splitCompleteLines_cons_other c a' hc, ih]
      rcases hA : splitCompleteLines a' with ⟨A1, A2⟩
      rcases hB : splitCompleteLines b with ⟨B1, B2⟩
      cases A1 with
      | nil =>
        cases B1 with
        | nil => simp [consFirst, glueFirst]
        | cons l ls => simp [consFirst, glueFirst]
      | cons l0 ls0 => simp [consFirst, glueFirst, List.cons_append]

theorem emitLines_append (xs ys : List (List Char)) :
    emitLines (xs ++ ys) = emitLines xs ++ emitLines ys := by
  simp [emitLines]

theorem streamAux_single (x : List Char) :
    streamAux [] [x]
      = emitLines (splitCompleteLines x).1
          ++ emitLines [(splitCompleteLines x).2] := by
  simp [streamAux]

theorem streamAux_eq_single (chunks : List (List Char)) :
    ∀ buf : List Char, '\n' ∉ buf →
      streamAux buf chunks = streamAux [] [buf ++ chunks.flatten] := by
  induction chunks with
  | nil =>
    intro buf h
    simp [streamAux, splitCompleteLines_no_newline buf h, emitLines]
  | cons c cs ih =>
    intro buf h
    have hA2 : '\n' ∉ (splitCompleteLines (buf ++ c)).2 :=
      splitCompleteLines_snd_no_newline (buf ++ c)
    show emitLines (splitCompleteLines (buf ++ c)).1
          ++ streamAux (splitCompleteLines (buf ++ c)).2 cs
        = streamAux [] [buf ++ (c :: cs).flatten]
    rw [ih _ hA2, List.flatten_cons, ← List.append_assoc,
        streamAux_single, streamAux_single,
        splitCompleteLines_append (buf ++ c) cs.flatten,
        splitCompleteLines_append (splitCompleteLines (buf ++ c)).2 cs.flatten,
        splitCompleteLines_no_newline _ hA2]
    simp [emitLines_append, List.append_assoc]

/-- C2: split-invariance of the line reader - for every text and every
way of splitting it into successive read chunks, `streamResponseLines`
emits exactly the lines it emits when the whole text arrives in a
single read. -/
theorem c2_split_invariance (chunks : List (List Char)) :
    streamResponseLines chunks = streamResponseLines [chunks.flatten] := by
  have h := streamAux_eq_single chunks [] (by simp)
  simpa [streamResponseLines] using h

end VoxClone
